import Mathlib

/-!
Shallow embedding of `src/ProspectIDs.py` (class `ProspectIDs`) and proofs
about its operations.

Modelling conventions:
* Python `dict`s (insertion ordered) are association lists; assignment
  `d[k] = v` replaces the value of an existing key in place and otherwise
  appends, `del d[k]` drops the entry.
* Python strings are Lean `String`s; slicing is performed on `String.data`
  (a `List Char`). Single-character strings stored as letters are `Char`s.
* `ProspectIDs.remove` (line 86 of the source) can overwrite the inner
  mapping of an area code with a bare *list* of family keys
  (`self.pids[fips] = [N for N in self.pids[fips] if N!=number]`), so the
  value stored under an area-code key is modelled as either a family
  dictionary or a bare key list (`FamVal`).
* Raised Python exceptions are modelled as error values: the `ValueError`s
  of the source map to the spec's taxonomy, and `Err.typeError` stands for
  any other runtime exception (`TypeError` / `AttributeError` /
  `IndexError` / `ValueError` from `max()` or `int()`) that dynamic typing
  can produce outside that taxonomy.
* `add` / `remove` return the registry together with an optional error;
  since all source mutations happen after the precondition checks, the
  registry component on an error is the registry at the moment of raising.
-/

set_option maxRecDepth 4000

instance {ε α : Type} [DecidableEq ε] [DecidableEq α] :
    DecidableEq (Except ε α) := fun a b =>
  match a, b with
  | Except.error e, Except.error f =>
    if h : e = f then isTrue (by rw [h])
    else isFalse (fun hc => h (by injection hc))
  | Except.error _, Except.ok _ => isFalse (fun hc => Except.noConfusion hc)
  | Except.ok _, Except.error _ => isFalse (fun hc => Except.noConfusion hc)
  | Except.ok x, Except.ok y =>
    if h : x = y then isTrue (by rw [h])
    else isFalse (fun hc => h (by injection hc))

namespace ProspectIDs

/-- Error kinds raised by the source, following the spec's taxonomy in §7;
`typeError` stands for runtime exceptions outside that taxonomy (see the
file comment). -/
inductive Err where
  | invalidIdentifier : Err
  | duplicateIdentifier : Err
  | unknownIdentifier : Err
  | invalidAreaCode : Err
  | letterExhausted : Err
  | typeError : Err
deriving DecidableEq

/-- Value stored under an area-code key of `self.pids`: normally a family
dictionary (family string to letter list), but line 86 of `remove` can
overwrite it with a bare list of family keys. -/
inductive FamVal where
  | dict : List (String × List Char) → FamVal
  | keys : List String → FamVal
deriving DecidableEq

/-- The registry `self.pids`: an insertion-ordered mapping from area-code
strings to `FamVal`s, modelled as an association list. -/
abbrev Pids := List (String × FamVal)

/-- Python dictionary assignment `d[k] = v`: replace the value of an
existing key in place, otherwise append the new entry at the end. -/
def dictSet {β : Type} (l : List (String × β)) (k : String) (v : β) :
    List (String × β) :=
  if (l.lookup k).isSome then
    l.map (fun p => if p.1 == k then (p.1, v) else p)
  else l ++ [(k, v)]

/-- Python `del d[k]`. -/
def dictDel {β : Type} (l : List (String × β)) (k : String) :
    List (String × β) :=
  l.filter (fun p => p.1 != k)

/-- `ProspectIDs._decompose` (line 42): `pid[:5], pid[5:-1], pid[-1]`.
The source performs no validation here; the `getLastD` default is never
reached by the callers, which validate first. -/
def decompose (pid : String) : String × String × Char :=
  (⟨pid.data.take 5⟩, ⟨(pid.data.drop 5).dropLast⟩, pid.data.getLastD 'A')

/-- Python `S.isnumeric()` restricted to ASCII: true iff `S` is nonempty
and all characters are decimal digits. -/
def pyIsNumeric (S : String) : Bool :=
  !S.data.isEmpty && S.data.all Char.isDigit

/-- `ProspectIDs._is_valid` (lines 45 to 50): a string of length 9 whose
first 8 characters are numeric and whose last character is alphabetic
(`isalpha` restricted to ASCII; the source does not check case). -/
def is_valid (pid : String) : Bool :=
  pid.data.length == 9 && pyIsNumeric ⟨pid.data.take 8⟩ &&
    (pid.data.getLastD ' ').isAlpha

/-- `ProspectIDs._is_novel` (lines 52 to 58). On a `keys` value,
`number in self.pids[fips]` is list membership; when it succeeds the next
line indexes the list with a string, a `TypeError`, modelled as `none`. -/
def is_novel (s : Pids) (pid : String) : Option Bool :=
  match s.lookup (decompose pid).1 with
  | none => some true
  | some (FamVal.dict fam) =>
    match fam.lookup (decompose pid).2.1 with
    | none => some true
    | some ls => some (!ls.contains (decompose pid).2.2)
  | some (FamVal.keys ks) =>
    if ks.contains (decompose pid).2.1 then none else some true

/-- `ProspectIDs.is_numeric_string` (lines 60 to 66). The Python default
`length=False` and an explicit `length=0` are both falsy, so `0` models
"no length given": the length comparison is guarded by `if length:`. -/
def is_numeric_string (S : String) (len : Nat) : Bool :=
  if !pyIsNumeric S then false
  else if len != 0 && S.data.length != len then false
  else true

/-- The nested insertion
`self.pids.setdefault(fips, {}).setdefault(number, []).append(letter)`
restricted to a family dictionary (lines 40 and 75). -/
def appendLetter (fam : List (String × List Char)) (number : String)
    (letter : Char) : List (String × List Char) :=
  match fam.lookup number with
  | some ls => dictSet fam number (ls ++ [letter])
  | none => fam ++ [(number, [letter])]

/-- The whole `setdefault` chain on the registry. The `keys` arm is the
Python `AttributeError` path (`list` has no `setdefault`); callers that can
reach it handle it separately, and `populate` never reaches it. -/
def insertNested (s : Pids) (fips number : String) (letter : Char) : Pids :=
  match s.lookup fips with
  | none => s ++ [(fips, FamVal.dict [(number, [letter])])]
  | some (FamVal.dict fam) =>
    dictSet s fips (FamVal.dict (appendLetter fam number letter))
  | some (FamVal.keys _) => s

/-- `ProspectIDs.add` (lines 68 to 75). -/
def add (s : Pids) (pid : String) : Pids × Option Err :=
  if !is_valid pid then (s, some Err.invalidIdentifier)
  else
    match is_novel s pid with
    | none => (s, some Err.typeError)
    | some false => (s, some Err.duplicateIdentifier)
    | some true =>
      match s.lookup (decompose pid).1 with
      | some (FamVal.keys _) => (s, some Err.typeError)
      | _ =>
        (insertNested s (decompose pid).1 (decompose pid).2.1
          (decompose pid).2.2, none)

/-- `ProspectIDs.remove` (lines 77 to 87). Line 86 of the source,
`self.pids[fips] = [N for N in self.pids[fips] if N!=number]`, iterates
over the inner dictionary (yielding its keys) and stores the resulting
*list* back under the area code: the `FamVal.keys` branch below. The two
`typeError` arms are unreachable when `is_novel` returned `some false`. -/
def remove (s : Pids) (pid : String) : Pids × Option Err :=
  if !is_valid pid then (s, some Err.invalidIdentifier)
  else
    match is_novel s pid with
    | none => (s, some Err.typeError)
    | some true => (s, some Err.unknownIdentifier)
    | some false =>
      match s.lookup (decompose pid).1 with
      | some (FamVal.dict fam) =>
        match fam.lookup (decompose pid).2.1 with
        | some ls =>
          let ls2 := ls.filter (fun L => L != (decompose pid).2.2)
          let fam2 := dictSet fam (decompose pid).2.1 ls2
          if ls2.isEmpty then
            let ks := (fam2.map Prod.fst).filter
              (fun N => N != (decompose pid).2.1)
            if ks.isEmpty then (dictDel s (decompose pid).1, none)
            else (dictSet s (decompose pid).1 (FamVal.keys ks), none)
          else (dictSet s (decompose pid).1 (FamVal.dict fam2), none)
        | none => (s, some Err.typeError)
      | _ => (s, some Err.typeError)

/-- Python `int(s)` on a string of decimal digits. -/
def strToNat (s : String) : Nat :=
  s.data.foldl (fun a c => a * 10 + (c.toNat - 48)) 0

/-- The decimal digit character of `d` (for `d < 10`). -/
def digitChar (d : Nat) : Char := Char.ofNat (48 + d)

/-- Decimal digits of `n`, least significant first; `fuel` bounds the
recursion and any `fuel > n` (with `fuel > 0`) yields the digits of `n`. -/
def digitsRevAux : Nat → Nat → List Char
  | 0, _ => []
  | fuel + 1, n =>
    if n < 10 then [digitChar n]
    else digitChar (n % 10) :: digitsRevAux fuel (n / 10)

/-- Python `str(n)` for a nonnegative integer: its decimal digits. -/
def natToStr (n : Nat) : String := ⟨(digitsRevAux (n + 1) n).reverse⟩

/-- Python `s.zfill(w)` for an unsigned `s`: left-pad with `'0'` to width
`w`, never truncating. -/
def zfill (s : String) (w : Nat) : String :=
  if w ≤ s.data.length then s
  else ⟨List.replicate (w - s.data.length) '0' ++ s.data⟩

/-- Lines 93 to 95 of `next_available_family`, applied to the list
`numbers`: the head of
`[x for x in range(1, max(numbers)+1) if x not in numbers] + [max+1]`,
zero-filled to width 3. -/
def nextFromNums (numbers : List Nat) : String :=
  zfill (natToStr
    (((List.range' 1 (numbers.foldl Nat.max 0)).filter
        (fun x => !numbers.contains x)
      ++ [numbers.foldl Nat.max 0 + 1]).headD 0)) 3

/-- `ProspectIDs.next_available_family` (lines 89 to 95). On a `keys`
value `self.pids[fips].keys()` is an `AttributeError`, and `max([])` on an
empty inner dictionary is a `ValueError`; both are `Err.typeError`. -/
def next_available_family (s : Pids) (fips : String) : Except Err String :=
  if !is_numeric_string fips 5 then Except.error Err.invalidAreaCode
  else
    match s.lookup fips with
    | some (FamVal.keys _) => Except.error Err.typeError
    | some (FamVal.dict fam) =>
      if fam.isEmpty then Except.error Err.typeError
      else Except.ok (nextFromNums (fam.map (fun p => strToNat p.1)))
    | none => Except.ok (nextFromNums [0])

/-- The `numbers` list of `next_available_family` (line 92): the family
keys under `fips` read as integers, or `[0]` when the area code is absent
(the `keys` arm mirrors the absent case but is never used under a
well-formed registry, where `next_available_family` errors instead). -/
def famNums (s : Pids) (fips : String) : List Nat :=
  match s.lookup fips with
  | some (FamVal.dict fam) => fam.map (fun p => strToNat p.1)
  | _ => [0]

/-- Lines 103 to 108 of `next_available_letter`: everything after the
decomposition, which only uses the area code and the family. Indexing
`[-1]` into an empty letter list would be an `IndexError`, and `.keys()`
on a `keys` value an `AttributeError`. -/
def navCore (s : Pids) (fips number : String) : Except Err String :=
  match s.lookup fips with
  | some (FamVal.keys _) => Except.error Err.typeError
  | some (FamVal.dict fam) =>
    match fam.lookup number with
    | some ls =>
      match ls.getLast? with
      | none => Except.error Err.typeError
      | some last =>
        if last == 'Z' then Except.error Err.letterExhausted
        else Except.ok ⟨[Char.ofNat (last.toNat + 1)]⟩
    | none => Except.ok "A"
  | none => Except.ok "A"

/-- The area code and family that `next_available_letter` works on: the
input, with letter `A` appended when it has exactly 8 characters, then
decomposed (lines 101 and 102). -/
def navDecomp (pid : String) : String × String :=
  let p : String := if pid.data.length == 8 then ⟨pid.data ++ ['A']⟩ else pid
  ((decompose p).1, (decompose p).2.1)

/-- `ProspectIDs.next_available_letter` (lines 97 to 108). -/
def next_available_letter (s : Pids) (pid : String) : Except Err String :=
  if !(is_valid pid || is_numeric_string pid 8) then
    Except.error Err.invalidIdentifier
  else navCore s (navDecomp pid).1 (navDecomp pid).2

/-- The letter list stored under `fips` and `number`, when both exist and
the area-code value is an actual family dictionary. -/
def famLetters (s : Pids) (fips number : String) : Option (List Char) :=
  match s.lookup fips with
  | some (FamVal.dict fam) => fam.lookup number
  | _ => none

/-- `ProspectIDs._populate_pids_from_sql` (lines 38 to 40), with the
externally fetched identifier list passed in explicitly: decompose each
identifier and run the `setdefault` chain, without validation. -/
def populate (ids : List String) : Pids :=
  ids.foldl
    (fun s pid =>
      insertNested s (decompose pid).1 (decompose pid).2.1
        (decompose pid).2.2)
    []

/-- Well-formedness of a family dictionary per the spec's data model:
nonempty, distinct family keys, and no family with an empty letter list
(Invariant 2). -/
def FamWF (fam : List (String × List Char)) : Prop :=
  fam ≠ [] ∧ (fam.map Prod.fst).Nodup ∧ ∀ p ∈ fam, p.2 ≠ []

/-- Well-formedness of an area-code value: it is an actual family
dictionary (not a bare key list) and that dictionary is well formed. -/
def FamValWF : FamVal → Prop
  | FamVal.dict fam => FamWF fam
  | FamVal.keys _ => False

instance : DecidablePred FamValWF := fun v => by
  cases v with
  | dict fam =>
    simp only [FamValWF, FamWF]
    infer_instance
  | keys ks =>
    simp only [FamValWF]
    infer_instance

/-- Well-formedness of the registry per the spec's data model: distinct
area-code keys, every value a well-formed family dictionary. -/
def WF (s : Pids) : Prop :=
  (s.map Prod.fst).Nodup ∧ ∀ p ∈ s, FamValWF p.2

instance (s : Pids) : Decidable (WF s) := by
  unfold WF
  infer_instance

/-- All family keys of an area-code value are numeric strings, so that
Python's `int()` succeeds on them. -/
def FamValNumeric : FamVal → Prop
  | FamVal.dict fam => ∀ q ∈ fam, pyIsNumeric q.1 = true
  | FamVal.keys _ => True

instance : DecidablePred FamValNumeric := fun v => by
  cases v with
  | dict fam =>
    simp only [FamValNumeric]
    infer_instance
  | keys ks =>
    simp only [FamValNumeric]
    infer_instance

/-- All family keys in the registry are numeric strings. -/
def NumericFams (s : Pids) : Prop := ∀ p ∈ s, FamValNumeric p.2

instance (s : Pids) : Decidable (NumericFams s) := by
  unfold NumericFams
  infer_instance

/-- The character is an uppercase ASCII letter, `A` to `Z`
(codes 65 to 90). -/
def upperAZ (c : Char) : Bool := 65 ≤ c.toNat && c.toNat ≤ 90

/-- Every letter stored under an area-code value is an uppercase ASCII
letter. -/
def FamValUpper : FamVal → Prop
  | FamVal.dict fam => ∀ q ∈ fam, ∀ c ∈ q.2, upperAZ c = true
  | FamVal.keys _ => True

instance : DecidablePred FamValUpper := fun v => by
  cases v with
  | dict fam =>
    simp only [FamValUpper]
    infer_instance
  | keys ks =>
    simp only [FamValUpper]
    infer_instance

/-- Every letter stored in the registry is an uppercase ASCII letter. -/
def UppercaseLetters (s : Pids) : Prop := ∀ p ∈ s, FamValUpper p.2

instance (s : Pids) : Decidable (UppercaseLetters s) := by
  unfold UppercaseLetters
  infer_instance

/-- The 999 family strings `001` to `999`, zero-padded. -/
def allFams : List String :=
  (List.range' 1 999).map (fun i => zfill (natToStr i) 3)

/-- 999 valid, sorted identifiers `12345001A` to `12345999A`, a legal
construction-time input per the spec's §6. -/
def bigIds : List String :=
  allFams.map (fun n => (⟨"12345".data ++ n.data ++ ['A']⟩ : String))

/-- The family dictionary holding families `001` to `999`, each with the
single letter `A`. -/
def bigFam : List (String × List Char) :=
  allFams.map (fun n => (n, (['A'] : List Char)))

/-! ### Concrete registries used as failing inputs and witnesses -/

/-- A registry holding the single identifier `54321001A`, built by `add`
from the empty registry. -/
def c1start : Pids := (add [] "54321001A").1

/-- A registry holding `12345001A` and `12345002A`, built by `add` from
the empty registry. -/
def c2start : Pids := (add (add [] "12345001A").1 "12345002A").1

/-- A registry with families `001`, `002` and `004` under area code
`12345` (the spec's gap-fill example). -/
def c3state : Pids :=
  [("12345", FamVal.dict [("001", ['A']), ("002", ['A']), ("004", ['A'])])]

/-- A registry with letters `A`, `B` under `12345`/`001` (the spec's
next-letter example). -/
def c4state : Pids := [("12345", FamVal.dict [("001", ['A', 'B'])])]

/-! ### Association-list and well-formedness lemmas -/

/-- A successful lookup yields a member of the association list. -/
lemma lookup_mem {β : Type} :
    ∀ {l : List (String × β)} {k : String} {v : β},
      l.lookup k = some v → (k, v) ∈ l := by
  intro l
  induction l with
  | nil =>
    intro k v h
    simp [List.lookup] at h
  | cons p t ih =>
    intro k v h
    obtain ⟨a, b⟩ := p
    simp only [List.lookup] at h
    by_cases hk : k = a
    · subst hk
      rw [beq_self_eq_true] at h
      simp only [Option.some.injEq] at h
      subst h
      exact List.mem_cons_self _ _
    · rw [beq_eq_false_iff_ne.mpr hk] at h
      exact List.mem_cons_of_mem _ (ih h)

/-- Under a well-formed registry every stored value is a well-formed
family dictionary. -/
lemma WF_lookup_dict {s : Pids} {k : String} {v : FamVal} (hwf : WF s)
    (h : s.lookup k = some v) : ∃ fam, v = FamVal.dict fam ∧ FamWF fam := by
  have hv := hwf.2 _ (lookup_mem h)
  cases v with
  | dict fam => exact ⟨fam, rfl, hv⟩
  | keys ks => exact absurd hv (by simp [FamValWF])

/-- Under a well-formed registry `is_novel` never hits the `TypeError`
path. -/
lemma is_novel_isSome {s : Pids} (hwf : WF s) (pid : String) :
    is_novel s pid ≠ none := by
  unfold is_novel
  cases hl : s.lookup (decompose pid).1 with
  | none => simp
  | some v =>
    obtain ⟨fam, rfl, _⟩ := WF_lookup_dict hwf hl
    cases hf : fam.lookup (decompose pid).2.1 with
    | none => simp [hf]
    | some ls => simp [hf]

/-- Inversion of `is_novel s pid = some false`: the full triple is
present in the registry. -/
lemma is_novel_false_elim {s : Pids} {pid : String}
    (h : is_novel s pid = some false) :
    ∃ fam ls, s.lookup (decompose pid).1 = some (FamVal.dict fam) ∧
      fam.lookup (decompose pid).2.1 = some ls ∧
      ls.contains (decompose pid).2.2 = true := by
  unfold is_novel at h
  cases hl : s.lookup (decompose pid).1 with
  | none =>
    rw [hl] at h
    simp at h
  | some v =>
    rw [hl] at h
    cases v with
    | dict fam =>
      dsimp only at h
      cases hf : fam.lookup (decompose pid).2.1 with
      | none =>
        rw [hf] at h
        simp at h
      | some ls =>
        rw [hf] at h
        refine ⟨fam, ls, rfl, hf, ?_⟩
        simp only [Option.some.injEq] at h
        cases hc : ls.contains (decompose pid).2.2 with
        | false =>
          rw [hc] at h
          simp at h
        | true => rfl
    | keys ks =>
      dsimp only at h
      by_cases hk : ks.contains (decompose pid).2.1 = true
      · rw [if_pos hk] at h
        simp at h
      · rw [if_neg hk] at h
        simp at h

/-! ### C1 and C2: the `remove` slip on line 86 -/

/-- C1: the claim fails on the code. Starting from a registry in which
area code `54321` already holds family `001`, `add "54321002A"` followed
by `remove "54321002A"` completes without error and makes the identifier
novel again, but the registry is NOT restored: line 86 of `remove`
overwrites the inner mapping of `54321` with the bare key list
`["001"]`, losing family `001`'s letters. -/
theorem c1_add_remove_does_not_restore :
    is_novel c1start "54321002A" = some true ∧
    (add c1start "54321002A").2 = none ∧
    (remove (add c1start "54321002A").1 "54321002A").2 = none ∧
    is_novel (remove (add c1start "54321002A").1 "54321002A").1 "54321002A"
      = some true ∧
    (remove (add c1start "54321002A").1 "54321002A").1 ≠ c1start := by
  decide

/-- C2: the claim fails on the code. Removing `12345002A` empties family
`002`, and line 86 then replaces the inner mapping of `12345` by the list
of remaining family keys: family `001` no longer maps to its letter
sequence `['A']`, and the area-code entry no longer maps to a mapping at
all, violating the nested-mapping shape and Invariant 2. -/
theorem c2_remove_breaks_nested_shape :
    c2start = [("12345", FamVal.dict [("001", ['A']), ("002", ['A'])])] ∧
    (remove c2start "12345002A").2 = none ∧
    (remove c2start "12345002A").1 = [("12345", FamVal.keys ["001"])] ∧
    (remove c2start "12345002A").1
      ≠ [("12345", FamVal.dict [("001", ['A'])])] := by
  decide

/-! ### C8: rejected operations have no side effect -/

/-- C8: whenever `add` or `remove` raises any error, the registry is
exactly as it was before the call; in the source every mutation sits
after the last precondition check, and the model returns the registry at
the moment of raising. -/
theorem c8_rejected_ops_leave_registry_unchanged (s : Pids) (pid : String) :
    (∀ e, (add s pid).2 = some e → (add s pid).1 = s) ∧
    (∀ e, (remove s pid).2 = some e → (remove s pid).1 = s) := by
  constructor
  · intro e
    unfold add
    split
    · intro _
      rfl
    · split
      · intro _
        rfl
      · intro _
        rfl
      · split
        · intro _
          rfl
        · intro h
          simp at h
  · intro e
    unfold remove
    split
    · intro _
      rfl
    · split
      · intro _
        rfl
      · intro _
        rfl
      · split
        · split
          · intro h
            exfalso
            revert h
            dsimp only
            split
            · split
              · simp
              · simp
            · simp
          · intro _
            rfl
        · intro _
          rfl

/-- Witness for C8 at the empty registry and the invalid identifier
`"x"`. -/
theorem c8_witness :
    (add [] "x").2 = some Err.invalidIdentifier ∧ (add [] "x").1 = [] ∧
    (remove [] "x").2 = some Err.invalidIdentifier ∧
    (remove [] "x").1 = [] :=
  ⟨by decide,
   (c8_rejected_ops_leave_registry_unchanged [] "x").1
     Err.invalidIdentifier (by decide),
   by decide,
   (c8_rejected_ops_leave_registry_unchanged [] "x").2
     Err.invalidIdentifier (by decide)⟩

/-! ### C7: precondition error taxonomy of add and remove -/

/-- On an invalid identifier `add` raises `InvalidIdentifier`. -/
lemma add_of_invalid {s : Pids} {pid : String} (hv : is_valid pid = false) :
    add s pid = (s, some Err.invalidIdentifier) := by
  unfold add
  rw [hv, Bool.not_false, if_pos rfl]

/-- On a valid, non-novel identifier `add` raises
`DuplicateIdentifier`. -/
lemma add_of_dup {s : Pids} {pid : String} (hv : is_valid pid = true)
    (hn : is_novel s pid = some false) :
    add s pid = (s, some Err.duplicateIdentifier) := by
  unfold add
  rw [hv, Bool.not_true, if_neg Bool.false_ne_true, hn]

/-- On a valid, novel identifier `add` succeeds under a well-formed
registry. -/
lemma add_snd_of_novel {s : Pids} {pid : String} (hwf : WF s)
    (hv : is_valid pid = true) (hn : is_novel s pid = some true) :
    (add s pid).2 = none := by
  unfold add
  rw [hv, Bool.not_true, if_neg Bool.false_ne_true, hn]
  dsimp only
  split
  · rename_i ks heq
    obtain ⟨fam, hfam, -⟩ := WF_lookup_dict hwf heq
    exact absurd hfam (by simp)
  · rfl

/-- On an invalid identifier `remove` raises `InvalidIdentifier`. -/
lemma remove_of_invalid {s : Pids} {pid : String}
    (hv : is_valid pid = false) :
    remove s pid = (s, some Err.invalidIdentifier) := by
  unfold remove
  rw [hv, Bool.not_false, if_pos rfl]

/-- On a valid, novel identifier `remove` raises `UnknownIdentifier`. -/
lemma remove_of_novel {s : Pids} {pid : String} (hv : is_valid pid = true)
    (hn : is_novel s pid = some true) :
    remove s pid = (s, some Err.unknownIdentifier) := by
  unfold remove
  rw [hv, Bool.not_true, if_neg Bool.false_ne_true, hn]

/-- On a valid, present identifier `remove` succeeds (possibly wrecking
the registry, see C1 and C2, but without raising). -/
lemma remove_snd_of_present {s : Pids} {pid : String}
    (hv : is_valid pid = true) (hn : is_novel s pid = some false) :
    (remove s pid).2 = none := by
  obtain ⟨fam, ls, hl, hf, -⟩ := is_novel_false_elim hn
  unfold remove
  rw [hv, Bool.not_true, if_neg Bool.false_ne_true, hn, hl]
  dsimp only
  rw [hf]
  dsimp only
  split
  · split
    · rfl
    · rfl
  · rfl

/-- C7: `add` raises `InvalidIdentifier` exactly when validity fails and
otherwise `DuplicateIdentifier` exactly when the identifier is not novel;
`remove` raises `InvalidIdentifier` exactly when validity fails and
otherwise `UnknownIdentifier` exactly when the identifier is novel; when
no precondition is violated, neither operation raises. Stated over
well-formed registries, on which `is_novel` cannot itself fail. -/
theorem c7_precondition_errors (s : Pids) (pid : String) (hwf : WF s) :
    ((add s pid).2 = some Err.invalidIdentifier ↔ is_valid pid = false) ∧
    (is_valid pid = true →
      ((add s pid).2 = some Err.duplicateIdentifier ↔
        is_novel s pid = some false)) ∧
    (is_valid pid = true → is_novel s pid = some true →
      (add s pid).2 = none) ∧
    ((remove s pid).2 = some Err.invalidIdentifier ↔
      is_valid pid = false) ∧
    (is_valid pid = true →
      ((remove s pid).2 = some Err.unknownIdentifier ↔
        is_novel s pid = some true)) ∧
    (is_valid pid = true → is_novel s pid = some false →
      (remove s pid).2 = none) := by
  cases hv : is_valid pid with
  | false =>
    rw [add_of_invalid hv, remove_of_invalid hv]
    exact ⟨by simp, by simp, by simp, by simp, by simp, by simp⟩
  | true =>
    cases hn : is_novel s pid with
    | none => exact absurd hn (is_novel_isSome hwf pid)
    | some b =>
      cases b with
      | false =>
        rw [add_of_dup hv hn, remove_snd_of_present hv hn]
        refine ⟨by simp, by simp, ?_, by simp, by simp, ?_⟩
        · intro _ hc
          simp at hc
        · intro _ _
          rfl
      | true =>
        rw [add_snd_of_novel hwf hv hn, remove_of_novel hv hn]
        refine ⟨by simp, by simp, ?_, by simp, by simp, ?_⟩
        · intro _ _
          rfl
        · intro _ hc
          simp at hc

/-- Witness for C7 at a one-identifier registry: a duplicate `add`, an
unknown `remove`, a successful `add` and a successful `remove`. -/
theorem c7_witness :
    WF c1start ∧
    (add c1start "54321001A").2 = some Err.duplicateIdentifier ∧
    (remove c1start "54321001B").2 = some Err.unknownIdentifier ∧
    (add c1start "54321001B").2 = none ∧
    (remove c1start "54321001A").2 = none :=
  ⟨by decide,
   ((c7_precondition_errors c1start "54321001A" (by decide)).2.1
     (by decide)).mpr (by decide),
   ((c7_precondition_errors c1start "54321001B" (by decide)).2.2.2.2.1
     (by decide)).mpr (by decide),
   (c7_precondition_errors c1start "54321001B" (by decide)).2.2.1
     (by decide) (by decide),
   (c7_precondition_errors c1start "54321001A" (by decide)).2.2.2.2.2
     (by decide) (by decide)⟩

/-! ### C10: is_numeric_string and the falsy length 0 -/

/-- C10: the claim fails on the code at length 0. `"123"` is a numeric
string whose length is not 0, so the claim demands `false`, but
`if length:` skips the length comparison for the falsy `0` and the call
returns `true`. -/
theorem c10_counterexample :
    is_numeric_string "123" 0 = true ∧ "123".data.length ≠ 0 := by
  decide

/-- The if-chain of `is_numeric_string` as a Bool expression. -/
lemma ite_false_false_true (p q : Bool) :
    (if (!p) = true then false else if q = true then false else true)
      = (p && !q) := by
  cases p <;> cases q <;> rfl

/-- De Morgan step for the length guard of `is_numeric_string`. -/
lemma not_bne_and_bne (L n : Nat) :
    (!(L != 0 && n != L)) = (L == 0 || n == L) := by
  unfold bne
  cases h0 : L == 0 <;> cases hn : n == L <;> rfl

/-- A list is not empty as a Bool iff it is not the empty list. -/
lemma not_isEmpty_iff (l : List Char) : (!l.isEmpty) = true ↔ l ≠ [] := by
  cases l <;> simp

/-- Branch-free characterization of `is_numeric_string`. -/
lemma is_numeric_string_eq (S : String) (L : Nat) :
    is_numeric_string S L
      = (pyIsNumeric S && (L == 0 || S.data.length == L)) := by
  unfold is_numeric_string
  rw [ite_false_false_true, not_bne_and_bne]

/-- C10 (amended): for a nonzero length `L`, `is_numeric_string S L` is
true iff `S` consists entirely of digits and has length `L`; for `L = 0`
the length check is skipped because `0` is falsy in Python, and the call
returns true iff `S` is a nonempty digit string. -/
theorem c10_amended_length_check (S : String) (L : Nat) :
    (L ≠ 0 → (is_numeric_string S L = true ↔
      (S.data.all Char.isDigit = true ∧ S.data.length = L))) ∧
    (is_numeric_string S 0 = true ↔
      (S.data ≠ [] ∧ S.data.all Char.isDigit = true)) := by
  constructor
  · intro hL
    rw [is_numeric_string_eq]
    unfold pyIsNumeric
    simp only [Bool.and_eq_true, Bool.or_eq_true, beq_iff_eq,
      not_isEmpty_iff]
    constructor
    · rintro ⟨⟨hne, hall⟩, h0 | hlen⟩
      · exact absurd h0 hL
      · exact ⟨hall, hlen⟩
    · rintro ⟨hall, hlen⟩
      refine ⟨⟨?_, hall⟩, Or.inr hlen⟩
      intro hc
      rw [hc] at hlen
      exact hL (by simpa using hlen.symm)
  · rw [is_numeric_string_eq]
    unfold pyIsNumeric
    simp only [Bool.and_eq_true, Bool.or_eq_true, beq_iff_eq,
      not_isEmpty_iff]
    constructor
    · rintro ⟨⟨hne, hall⟩, _⟩
      exact ⟨hne, hall⟩
    · rintro ⟨hne, hall⟩
      exact ⟨⟨hne, hall⟩, Or.inl trivial⟩

/-- Witness for C10 (amended) at `"123"` with lengths 3 and 0. -/
theorem c10_amended_witness :
    (is_numeric_string "123" 3 = true ↔
      ("123".data.all Char.isDigit = true ∧ "123".data.length = 3)) ∧
    (is_numeric_string "123" 0 = true ↔
      ("123".data ≠ [] ∧ "123".data.all Char.isDigit = true)) :=
  ⟨(c10_amended_length_check "123" 3).1 (by decide),
   (c10_amended_length_check "123" 0).2⟩

/-! ### C4, C6, C9: next_available_letter -/

/-- When the precondition holds, `next_available_letter` is `navCore` on
the decomposed area code and family. -/
lemma nav_guard_eq {s : Pids} {pid : String}
    (h : (is_valid pid || is_numeric_string pid 8) = true) :
    next_available_letter s pid
      = navCore s (navDecomp pid).1 (navDecomp pid).2 := by
  unfold next_available_letter
  rw [h, Bool.not_true, if_neg Bool.false_ne_true]

/-- C4: when the decomposed area code and family both exist in a
well-formed registry, `next_available_letter` fails with
`LetterExhausted` exactly when the trailing (last-appended) element of
the family's letter sequence is `Z`, and otherwise returns the character
immediately after that trailing element; when the area code or family is
absent it returns `A`. -/
theorem c4_next_letter_trailing_successor (s : Pids) (pid : String)
    (hwf : WF s)
    (hpre : is_valid pid = true ∨ is_numeric_string pid 8 = true) :
    (∀ ls, famLetters s (navDecomp pid).1 (navDecomp pid).2 = some ls →
      (ls.getLastD 'A' = 'Z' →
        next_available_letter s pid = Except.error Err.letterExhausted) ∧
      (ls.getLastD 'A' ≠ 'Z' →
        next_available_letter s pid
          = Except.ok ⟨[Char.ofNat ((ls.getLastD 'A').toNat + 1)]⟩)) ∧
    (famLetters s (navDecomp pid).1 (navDecomp pid).2 = none →
      next_available_letter s pid = Except.ok "A") := by
  have hguard : (is_valid pid || is_numeric_string pid 8) = true := by
    rcases hpre with h | h
    · rw [h]
      rfl
    · rw [h]
      simp
  rw [nav_guard_eq hguard]
  unfold famLetters navCore
  cases hl : s.lookup (navDecomp pid).1 with
  | none =>
    constructor
    · intro ls hls
      simp at hls
    · intro _
      rfl
  | some v =>
    obtain ⟨fam, rfl, hfam⟩ := WF_lookup_dict hwf hl
    dsimp only
    cases hf : fam.lookup (navDecomp pid).2 with
    | none =>
      constructor
      · intro ls hls
        simp at hls
      · intro _
        rfl
    | some ls0 =>
      have hne : ls0 ≠ [] := hfam.2.2 _ (lookup_mem hf)
      have hlastq : ls0.getLast? = some (ls0.getLast hne) :=
        List.getLast?_eq_getLast ls0 hne
      have hlast : ls0.getLastD 'A' = ls0.getLast hne := by
        rw [List.getLastD_eq_getLast?, hlastq]
        rfl
      dsimp only
      rw [hlastq]
      dsimp only
      constructor
      · intro ls hls
        have hE : ls = ls0 := by
          simpa using hls.symm
        subst hE
        rw [hlast]
        constructor
        · intro hz
          rw [if_pos (by simp [hz])]
        · intro hz
          rw [if_neg (by simp [hz])]
      · intro hc
        simp at hc

/-- Witness for C4 at the spec's example: letters `A`, `B` under
`12345`/`001`, both for the present case (result `C`) and the absent
case (result `A`). -/
theorem c4_witness :
    famLetters c4state (navDecomp "12345001A").1 (navDecomp "12345001A").2
      = some ['A', 'B'] ∧
    next_available_letter c4state "12345001A" = Except.ok "C" ∧
    next_available_letter c4state "12345002A" = Except.ok "A" := by
  refine ⟨by decide, ?_, ?_⟩
  · have h := (c4_next_letter_trailing_successor c4state "12345001A"
      (by decide) (Or.inl (by decide))).1 ['A', 'B'] (by decide)
    have h2 := h.2 (by decide)
    rw [h2]
    decide
  · exact (c4_next_letter_trailing_successor c4state "12345002A"
      (by decide) (Or.inl (by decide))).2 (by decide)

/-- The successor of an uppercase letter below `Z` is an uppercase
letter. -/
lemma upperAZ_succ : ∀ m < 90, 65 ≤ m → upperAZ (Char.ofNat (m + 1)) = true := by
  decide

/-- A character with code 90 is `Z`. -/
lemma char_toNat_90 {c : Char} (h : c.toNat = 90) : c = 'Z' := by
  apply Char.ext
  apply UInt32.ext
  simpa [Char.toNat] using h

/-- C6: the claim fails on the code. `is_valid` accepts the lowercase
identifier `12345001a` (it does not check case), `add` stores the
lowercase letter, and `next_available_letter` then returns the lowercase
string `b`, which is not an uppercase letter in `A` to `Z`. -/
theorem c6_counterexample :
    (add [] "12345001a").2 = none ∧
    next_available_letter (add [] "12345001a").1 "12345001A"
      = Except.ok "b" ∧
    upperAZ 'b' = false ∧ ("b" : String) = ⟨['b']⟩ := by
  decide

/-- C6 (amended): on a well-formed registry all of whose stored letters
are uppercase `A` to `Z`, `next_available_letter` either returns a
single uppercase letter in `A` to `Z` or fails with `LetterExhausted`;
since `is_valid` does not check case, lowercase letters can enter the
registry, and then lowercase results are possible. -/
theorem c6_amended_uppercase_result (s : Pids) (pid : String) (hwf : WF s)
    (hup : UppercaseLetters s)
    (hpre : is_valid pid = true ∨ is_numeric_string pid 8 = true) :
    (∃ c, next_available_letter s pid = Except.ok ⟨[c]⟩ ∧
      upperAZ c = true) ∨
    next_available_letter s pid = Except.error Err.letterExhausted := by
  have hguard : (is_valid pid || is_numeric_string pid 8) = true := by
    rcases hpre with h | h
    · rw [h]
      rfl
    · rw [h]
      simp
  rw [nav_guard_eq hguard]
  unfold navCore
  cases hl : s.lookup (navDecomp pid).1 with
  | none => exact Or.inl ⟨'A', rfl, by decide⟩
  | some v =>
    obtain ⟨fam, rfl, hfam⟩ := WF_lookup_dict hwf hl
    dsimp only
    cases hf : fam.lookup (navDecomp pid).2 with
    | none => exact Or.inl ⟨'A', rfl, by decide⟩
    | some ls0 =>
      have hne : ls0 ≠ [] := hfam.2.2 _ (lookup_mem hf)
      have hlastq : ls0.getLast? = some (ls0.getLast hne) :=
        List.getLast?_eq_getLast ls0 hne
      dsimp only
      rw [hlastq]
      dsimp only
      have hupl : upperAZ (ls0.getLast hne) = true := by
        have h1 := hup _ (lookup_mem hl)
        have h2 : ∀ q ∈ fam, ∀ c ∈ q.2, upperAZ c = true := h1
        exact h2 _ (lookup_mem hf) _ (List.getLast_mem hne)
      cases hz : (ls0.getLast hne == 'Z') with
      | true =>
        rw [if_pos rfl]
        exact Or.inr rfl
      | false =>
        rw [if_neg Bool.false_ne_true]
        refine Or.inl ⟨Char.ofNat ((ls0.getLast hne).toNat + 1), rfl, ?_⟩
        have hzz : ls0.getLast hne ≠ 'Z' := beq_eq_false_iff_ne.mp hz
        have hub : (ls0.getLast hne).toNat ≤ 90 ∧
            65 ≤ (ls0.getLast hne).toNat := by
          unfold upperAZ at hupl
          simp only [Bool.and_eq_true, decide_eq_true_eq] at hupl
          exact ⟨hupl.2, hupl.1⟩
        have hlt : (ls0.getLast hne).toNat < 90 := by
          rcases Nat.lt_or_ge (ls0.getLast hne).toNat 90 with h | h
          · exact h
          · exact absurd (char_toNat_90 (Nat.le_antisymm hub.1 h)) hzz
        exact upperAZ_succ _ hlt hub.2

/-- Witness for C6 (amended) at the two-letter registry of the spec's
example. -/
theorem c6_amended_witness :
    (∃ c, next_available_letter c4state "12345001A" = Except.ok ⟨[c]⟩ ∧
      upperAZ c = true) ∨
    next_available_letter c4state "12345001A"
      = Except.error Err.letterExhausted :=
  c6_amended_uppercase_result c4state "12345001A" (by decide) (by decide)
    (Or.inl (by decide))

/-- The conjuncts of `is_valid`. -/
lemma is_valid_parts {pid : String} (h : is_valid pid = true) :
    pid.data.length = 9 ∧ pyIsNumeric ⟨pid.data.take 8⟩ = true ∧
      (pid.data.getLastD ' ').isAlpha = true := by
  unfold is_valid at h
  simp only [Bool.and_eq_true, beq_iff_eq] at h
  exact ⟨h.1.1, h.1.2, h.2⟩

/-- `navDecomp` on a 9-character input: no padding happens. -/
lemma navDecomp_of_nine {pid : String} (h9 : pid.data.length = 9) :
    navDecomp pid = (⟨pid.data.take 5⟩, ⟨(pid.data.drop 5).dropLast⟩) := by
  unfold navDecomp
  rw [h9]
  rfl

/-- `navDecomp` on an 8-character input: `A` is appended and then cut
away again by the decomposition. -/
lemma navDecomp_of_eight {q : String} (h8 : q.data.length = 8) :
    navDecomp q = (⟨q.data.take 5⟩, ⟨q.data.drop 5⟩) := by
  unfold navDecomp
  rw [h8, if_pos (show ((8 : Nat) == 8) = true from rfl)]
  dsimp only [decompose]
  have h1 : (q.data ++ ['A']).take 5 = q.data.take 5 :=
    List.take_append_of_le_length (by omega)
  have h2 : ((q.data ++ ['A']).drop 5).dropLast = q.data.drop 5 := by
    rw [List.drop_append_of_le_length (by omega), List.dropLast_concat]
  rw [h1, h2]

/-- For a 9-character identifier both decomposition components are
functions of the first 8 characters. -/
lemma navDecomp_eq_of_take_eight {pid : String} (h9 : pid.data.length = 9) :
    navDecomp pid
      = (⟨(pid.data.take 8).take 5⟩, ⟨(pid.data.take 8).drop 5⟩) := by
  rw [navDecomp_of_nine h9]
  have h1 : (pid.data.take 8).take 5 = pid.data.take 5 := by
    rw [List.take_take]
    norm_num
  have h2 : (pid.data.take 8).drop 5 = (pid.data.drop 5).dropLast := by
    rw [List.drop_take, List.dropLast_eq_take, List.length_drop, h9]
  rw [h1, h2]

/-- C9: the outcome of `next_available_letter` does not depend on the
trailing letter of its input: two valid identifiers agreeing on their
first 8 characters produce the same outcome, which also equals the
outcome on the bare 8-digit numeric part (treated as if `A` were
appended). -/
theorem c9_trailing_letter_immaterial (s : Pids) (p1 p2 : String)
    (h1 : is_valid p1 = true) (h2 : is_valid p2 = true)
    (h8 : p1.data.take 8 = p2.data.take 8) :
    next_available_letter s p1 = next_available_letter s p2 ∧
    next_available_letter s p1
      = next_available_letter s ⟨p1.data.take 8⟩ := by
  obtain ⟨h1len, h1num, -⟩ := is_valid_parts h1
  obtain ⟨h2len, -, -⟩ := is_valid_parts h2
  have hqlen : (String.mk (p1.data.take 8)).data.length = 8 := by
    show (p1.data.take 8).length = 8
    rw [List.length_take, h1len]
    decide
  have hqnum : is_numeric_string ⟨p1.data.take 8⟩ 8 = true := by
    rw [is_numeric_string_eq, h1num]
    show (true && (8 == 0 || decide ((p1.data.take 8).length = 8))) = true
    rw [List.length_take, h1len]
    rfl
  have hd1 := navDecomp_eq_of_take_eight h1len
  have hd2 := navDecomp_eq_of_take_eight h2len
  have hdq := navDecomp_of_eight hqlen
  have hdq' : navDecomp ⟨p1.data.take 8⟩
      = (⟨(p1.data.take 8).take 5⟩, ⟨(p1.data.take 8).drop 5⟩) := hdq
  constructor
  · rw [nav_guard_eq (by rw [h1]; rfl), nav_guard_eq (by rw [h2]; rfl),
      hd1, hd2, h8]
  · rw [nav_guard_eq (by rw [h1]; rfl),
      nav_guard_eq (by rw [hqnum]; simp), hd1, hdq']

/-- Witness for C9: identifiers `12345001A` and `12345001Q` and the bare
prefix `12345001` produce the same outcome on the example registry. -/
theorem c9_witness :
    next_available_letter c4state "12345001A"
      = next_available_letter c4state "12345001Q" ∧
    next_available_letter c4state "12345001A"
      = next_available_letter c4state ⟨"12345001A".data.take 8⟩ :=
  c9_trailing_letter_immaterial c4state "12345001A" "12345001Q"
    (by decide) (by decide) (by decide)

/-! ### C3: next_available_family fills the lowest gap -/

/-- A Bool that is not true is false. -/
lemma bool_not_true {b : Bool} (h : ¬ b = true) : b = false := by
  cases b
  · rfl
  · exact absurd rfl h

/-- Head of a filtered list with a final fallback element. -/
lemma headD_filter_append (l : List Nat) (p : Nat → Bool) (d : Nat) :
    ((l.filter p) ++ [d]).headD 0 = (l.find? p).getD d := by
  induction l with
  | nil => rfl
  | cons a t ih =>
    by_cases hp : p a = true
    · rw [List.filter_cons, if_pos hp, List.find?_cons_of_pos _ hp]
      rfl
    · rw [List.filter_cons, if_neg hp, List.find?_cons_of_neg _ hp]
      exact ih

/-- The element found in `range'` is the least one at or above the start
satisfying the predicate. -/
lemma find?_range'_min (p : Nat → Bool) :
    ∀ (n st x : Nat), (List.range' st n).find? p = some x →
      ∀ y, st ≤ y → y < x → p y = false := by
  intro n
  induction n with
  | zero =>
    intro st x h
    rw [List.range'_zero, List.find?_nil] at h
    exact absurd h (by simp)
  | succ k ih =>
    intro st x h y hy1 hy2
    rw [List.range'_succ] at h
    by_cases hp : p st = true
    · rw [List.find?_cons_of_pos _ hp] at h
      have hx : st = x := by simpa using h
      omega
    · rw [List.find?_cons_of_neg _ hp] at h
      by_cases hys : y = st
      · subst hys
        exact bool_not_true hp
      · exact ih (st + 1) x h y (by omega) hy2

/-- The fold seed is below the fold of `Nat.max`. -/
lemma le_foldl_max : ∀ (l : List Nat) (a : Nat), a ≤ l.foldl Nat.max a := by
  intro l
  induction l with
  | nil =>
    intro a
    exact le_rfl
  | cons x t ih =>
    intro a
    calc a ≤ Nat.max a x := Nat.le_max_left a x
    _ ≤ t.foldl Nat.max (Nat.max a x) := ih _

/-- Every member is below the fold of `Nat.max`. -/
lemma mem_le_foldl_max :
    ∀ (l : List Nat) (a x : Nat), x ∈ l → x ≤ l.foldl Nat.max a := by
  intro l
  induction l with
  | nil =>
    intro a x h
    simp at h
  | cons b t ih =>
    intro a x h
    show x ≤ t.foldl Nat.max (Nat.max a b)
    rcases List.mem_cons.mp h with rfl | hmem
    · calc x ≤ Nat.max a x := Nat.le_max_right a x
      _ ≤ t.foldl Nat.max (Nat.max a x) := le_foldl_max t _
    · exact ih _ x hmem

/-- `nextFromNums` returns, zero-filled to 3 digits, the least positive
integer not in the list. -/
lemma nextFromNums_least (numbers : List Nat) :
    ∃ n, nextFromNums numbers = zfill (natToStr n) 3 ∧ 1 ≤ n ∧
      n ∉ numbers ∧ ∀ m, 1 ≤ m → m ∉ numbers → n ≤ m := by
  unfold nextFromNums
  rw [headD_filter_append]
  cases hfind : (List.range' 1 (numbers.foldl Nat.max 0)).find?
      (fun x => !numbers.contains x) with
  | some x =>
    have px0 := List.find?_some hfind
    have px : x ∉ numbers := by simpa using px0
    have hx1 : 1 ≤ x :=
      (List.mem_range'_1.mp (List.mem_of_find?_eq_some hfind)).1
    refine ⟨x, rfl, hx1, px, ?_⟩
    intro m hm1 hmnot
    by_contra hlt
    have hpm := find?_range'_min _ _ 1 x hfind m hm1 (by omega)
    have : m ∈ numbers := by simpa using hpm
    exact hmnot this
  | none =>
    have hnotmem : (numbers.foldl Nat.max 0 + 1) ∉ numbers := by
      intro hmem
      have := mem_le_foldl_max numbers 0 _ hmem
      omega
    refine ⟨numbers.foldl Nat.max 0 + 1, rfl, by omega, hnotmem, ?_⟩
    intro m hm1 hmnot
    by_contra hlt
    have hmr : m ∈ List.range' 1 (numbers.foldl Nat.max 0) :=
      List.mem_range'_1.mpr ⟨hm1, by omega⟩
    have := List.find?_eq_none.mp hfind m hmr
    have : m ∈ numbers := by simpa using bool_not_true this
    exact hmnot this

/-- C3: under a well-formed registry with numeric family keys,
`next_available_family` on a 5-digit numeric area code returns,
zero-padded to 3 digits, the least positive integer not among the
family numbers registered under that area code (the `numbers` list,
which is `[0]` when the area code is absent, making the result `001`):
gaps left by removed families are filled before the range is
extended. -/
theorem c3_next_family_gap_fill (s : Pids) (a : String)
    (ha : is_numeric_string a 5 = true) (hwf : WF s)
    (hnum : NumericFams s) :
    ∃ n, next_available_family s a = Except.ok (zfill (natToStr n) 3) ∧
      1 ≤ n ∧ n ∉ famNums s a ∧
      (∀ m, 1 ≤ m → m ∉ famNums s a → n ≤ m) ∧
      (s.lookup a = none →
        next_available_family s a = Except.ok "001") := by
  unfold next_available_family famNums
  rw [ha, Bool.not_true, if_neg Bool.false_ne_true]
  cases hl : s.lookup a with
  | none =>
    dsimp only
    obtain ⟨n, hn, h1, hnot, hmin⟩ := nextFromNums_least [0]
    have hn1 : n = 1 := by
      have hle : n ≤ 1 := hmin 1 le_rfl (by simp)
      omega
    refine ⟨n, by rw [hn], h1, hnot, hmin, ?_⟩
    intro _
    rw [hn, hn1]
    decide
  | some v =>
    obtain ⟨fam, rfl, hfam⟩ := WF_lookup_dict hwf hl
    dsimp only
    have hfe : fam.isEmpty = false := by
      cases hcase : fam with
      | nil => exact absurd hcase hfam.1
      | cons b t => rfl
    rw [if_neg (by rw [hfe]; exact Bool.false_ne_true)]
    obtain ⟨n, hn, h1, hnot, hmin⟩ :=
      nextFromNums_least (fam.map fun p => strToNat p.1)
    refine ⟨n, by rw [hn], h1, hnot, hmin, ?_⟩
    intro hc
    simp at hc

/-- Witness for C3 at the spec's gap-fill example: families `001`, `002`,
`004` under `12345` yield `003`. -/
theorem c3_witness :
    is_numeric_string "12345" 5 = true ∧ WF c3state ∧
    NumericFams c3state ∧
    (∃ n, next_available_family c3state "12345"
        = Except.ok (zfill (natToStr n) 3) ∧ 1 ≤ n ∧
        n ∉ famNums c3state "12345" ∧
        (∀ m, 1 ≤ m → m ∉ famNums c3state "12345" → n ≤ m) ∧
        (c3state.lookup "12345" = none →
          next_available_family c3state "12345" = Except.ok "001")) ∧
    next_available_family c3state "12345" = Except.ok "003" :=
  ⟨by decide, by decide, by decide,
   c3_next_family_gap_fill c3state "12345" (by decide) (by decide)
     (by decide),
   by decide⟩

/-! ### C5: the shape of next_available_family results -/

/-- Leading zeros do not change the numeric value read by `strToNat`. -/
lemma strToNat_zfill (s : String) (w : Nat) :
    strToNat (zfill s w) = strToNat s := by
  unfold zfill
  by_cases h : w ≤ s.data.length
  · rw [if_pos h]
  · rw [if_neg h]
    show (List.replicate (w - s.data.length) '0' ++ s.data).foldl
      (fun a c => a * 10 + (c.toNat - 48)) 0 = strToNat s
    rw [List.foldl_append]
    have hz : ∀ k, (List.replicate k '0').foldl
        (fun a c => a * 10 + (c.toNat - 48)) 0 = 0 := by
      intro k
      induction k with
      | zero => rfl
      | succ j ih => exact ih
    rw [hz]
    rfl

/-- Decimal digit characters are digits. -/
lemma digitChar_isDigit : ∀ d < 10, (digitChar d).isDigit = true := by
  decide

/-- Code of a decimal digit character. -/
lemma digitChar_toNat : ∀ d < 10, (digitChar d).toNat = 48 + d := by
  decide

/-- With enough fuel, `digitsRevAux` yields a nonempty list of digit
characters whose reversal reads back as the number. -/
lemma digitsRevAux_spec :
    ∀ (fuel n : Nat), n < fuel →
      digitsRevAux fuel n ≠ [] ∧
      (∀ c ∈ digitsRevAux fuel n, c.isDigit = true) ∧
      (digitsRevAux fuel n).reverse.foldl
        (fun a c => a * 10 + (c.toNat - 48)) 0 = n := by
  intro fuel
  induction fuel with
  | zero =>
    intro n h
    omega
  | succ k ih =>
    intro n h
    by_cases h10 : n < 10
    · have he : digitsRevAux (k + 1) n = [digitChar n] := by
        unfold digitsRevAux
        rw [if_pos h10]
      rw [he]
      refine ⟨by simp, ?_, ?_⟩
      · intro c hc
        rw [List.mem_singleton] at hc
        subst hc
        exact digitChar_isDigit n h10
      · show List.foldl (fun a c => a * 10 + (c.toNat - 48)) 0 [digitChar n]
          = n
        show 0 * 10 + ((digitChar n).toNat - 48) = n
        rw [digitChar_toNat n h10]
        omega
    · have he : digitsRevAux (k + 1) n
          = digitChar (n % 10) :: digitsRevAux k (n / 10) := by
        simp only [digitsRevAux]
        rw [if_neg h10]
      have hdiv : n / 10 < k := by
        have h1 : n / 10 < n := Nat.div_lt_self (by omega) (by omega)
        omega
      obtain ⟨ihne, ihdig, ihval⟩ := ih (n / 10) hdiv
      rw [he]
      refine ⟨by simp, ?_, ?_⟩
      · intro c hc
        rcases List.mem_cons.mp hc with rfl | hmem
        · exact digitChar_isDigit _ (Nat.mod_lt n (by omega))
        · exact ihdig c hmem
      · rw [List.reverse_cons, List.foldl_append, ihval]
        show n / 10 * 10 + ((digitChar (n % 10)).toNat - 48) = n
        rw [digitChar_toNat _ (Nat.mod_lt n (by omega))]
        omega

/-- Reading back the decimal representation gives the number. -/
lemma strToNat_natToStr (n : Nat) : strToNat (natToStr n) = n :=
  (digitsRevAux_spec (n + 1) n (by omega)).2.2

/-- The decimal representation consists of digits. -/
lemma natToStr_digits (n : Nat) :
    ∀ c ∈ (natToStr n).data, c.isDigit = true := by
  intro c hc
  exact (digitsRevAux_spec (n + 1) n (by omega)).2.1 c
    (List.mem_reverse.mp hc)

/-- `zfill` never truncates below the requested width. -/
lemma zfill_ge (s : String) (w : Nat) : w ≤ (zfill s w).data.length := by
  unfold zfill
  by_cases h : w ≤ s.data.length
  · rw [if_pos h]
    exact h
  · rw [if_neg h]
    show w ≤ (List.replicate (w - s.data.length) '0' ++ s.data).length
    rw [List.length_append, List.length_replicate]
    omega

/-- `zfill` of a digit string is a digit string. -/
lemma zfill_digits (s : String) (w : Nat)
    (hs : ∀ c ∈ s.data, c.isDigit = true) :
    ∀ c ∈ (zfill s w).data, c.isDigit = true := by
  unfold zfill
  by_cases h : w ≤ s.data.length
  · rw [if_pos h]
    exact hs
  · rw [if_neg h]
    intro c hc
    rcases List.mem_append.mp hc with hmem | hmem
    · rw [List.eq_of_mem_replicate hmem]
      rfl
    · exact hs c hmem

/-- With enough fuel, a number below `10 ^ (k + 1)` has at most `k + 1`
digits. -/
lemma digitsRevAux_length : ∀ (fuel n k : Nat), n < fuel →
    n < 10 ^ (k + 1) → (digitsRevAux fuel n).length ≤ k + 1 := by
  intro fuel
  induction fuel with
  | zero =>
    intro n k h _
    omega
  | succ f ih =>
    intro n k h hk
    by_cases h10 : n < 10
    · have he : digitsRevAux (f + 1) n = [digitChar n] := by
        unfold digitsRevAux
        rw [if_pos h10]
      rw [he]
      simp
    · have he : digitsRevAux (f + 1) n
          = digitChar (n % 10) :: digitsRevAux f (n / 10) := by
        simp only [digitsRevAux]
        rw [if_neg h10]
      rw [he, List.length_cons]
      cases k with
      | zero =>
        exfalso
        rw [pow_one] at hk
        omega
      | succ k2 =>
        have hdiv : n / 10 < f := by
          have h1 : n / 10 < n := Nat.div_lt_self (by omega) (by omega)
          omega
        have hdivk : n / 10 < 10 ^ (k2 + 1) := by
          rw [Nat.div_lt_iff_lt_mul (show (0 : Nat) < 10 from by norm_num)]
          calc n < 10 ^ (k2 + 1 + 1) := hk
          _ = 10 ^ (k2 + 1) * 10 := pow_succ 10 (k2 + 1)
        have h2 := ih (n / 10) k2 hdiv hdivk
        omega

/-- Numbers up to 999 print with at most 3 digits. -/
lemma natToStr_length_le (n : Nat) (h : n ≤ 999) :
    (natToStr n).data.length ≤ 3 := by
  show (digitsRevAux (n + 1) n).reverse.length ≤ 3
  rw [List.length_reverse]
  exact digitsRevAux_length (n + 1) n 2 (by omega)
    (by calc n ≤ 999 := h
        _ < 10 ^ (2 + 1) := by norm_num)

/-- `zfill` pads a short string to exactly the requested width. -/
lemma zfill_length_of_le (s : String) (w : Nat)
    (h : s.data.length ≤ w) : (zfill s w).data.length = w := by
  unfold zfill
  by_cases hh : w ≤ s.data.length
  · rw [if_pos hh]
    omega
  · rw [if_neg hh]
    show (List.replicate (w - s.data.length) '0' ++ s.data).length = w
    rw [List.length_append, List.length_replicate]
    omega

/-- Every `nextFromNums` result is at least 3 characters of digits, and
is the zero-fill to width 3 of some computed number. -/
lemma nextFromNums_shape (numbers : List Nat) :
    3 ≤ (nextFromNums numbers).data.length ∧
    (∀ c ∈ (nextFromNums numbers).data, c.isDigit = true) ∧
    ∃ n, nextFromNums numbers = zfill (natToStr n) 3 := by
  unfold nextFromNums
  exact ⟨zfill_ge _ 3, zfill_digits _ 3 (natToStr_digits _), _, rfl⟩

/-- C5 (amended): every string successfully returned by
`next_available_family` consists of digits and is at least 3 characters
long: it is `str(n).zfill(3)` for the computed next family number `n`
(recoverable from the string itself, pinning `n` down), and it has
exactly 3 characters whenever `n` is at most 999; but `zfill(3)` does
not truncate, so once families `001` to `999` are all registered the
result is the 4-character string `1000` (see the counterexample). -/
theorem c5_amended_result_shape (s : Pids) (a : String) (r : String)
    (h : next_available_family s a = Except.ok r) :
    3 ≤ r.data.length ∧ (∀ c ∈ r.data, c.isDigit = true) ∧
    ∃ n, r = zfill (natToStr n) 3 ∧ strToNat r = n ∧
      (n ≤ 999 → r.data.length = 3) := by
  have main : ∀ numbers : List Nat, r = nextFromNums numbers →
      3 ≤ r.data.length ∧ (∀ c ∈ r.data, c.isDigit = true) ∧
      ∃ n, r = zfill (natToStr n) 3 ∧ strToNat r = n ∧
        (n ≤ 999 → r.data.length = 3) := by
    intro numbers hr
    obtain ⟨h1, h2, n, hn⟩ := nextFromNums_shape numbers
    rw [← hr] at h1 h2 hn
    refine ⟨h1, h2, n, hn, ?_, ?_⟩
    · rw [hn, strToNat_zfill, strToNat_natToStr]
    · intro hle
      rw [hn]
      exact zfill_length_of_le _ 3 (natToStr_length_le n hle)
  unfold next_available_family at h
  split at h
  · simp at h
  · split at h
    · simp at h
    · split at h
      · simp at h
      · injection h with h2
        exact main _ h2.symm
    · injection h with h2
      exact main _ h2.symm

/-- Witness for C5 (amended) at the gap-fill example state: the result
`003` is the zero-fill of the computed number 3, which is at most 999,
so the exactly-3-characters conjunct fires. -/
theorem c5_amended_witness :
    next_available_family c3state "12345" = Except.ok "003" ∧
    3 ≤ ("003" : String).data.length ∧
    (∀ c ∈ ("003" : String).data, c.isDigit = true) ∧
    (∃ n, ("003" : String) = zfill (natToStr n) 3 ∧
      strToNat "003" = n ∧ (n ≤ 999 → ("003" : String).data.length = 3)) :=
  ⟨by decide,
   (c5_amended_result_shape c3state "12345" "003" (by decide)).1,
   (c5_amended_result_shape c3state "12345" "003" (by decide)).2.1,
   (c5_amended_result_shape c3state "12345" "003" (by decide)).2.2⟩

/-- Lookup distributes over append when the key misses the front. -/
lemma lookup_append_of_none {β : Type} {l1 : List (String × β)}
    (l2 : List (String × β)) {k : String} (h : l1.lookup k = none) :
    (l1 ++ l2).lookup k = l2.lookup k := by
  induction l1 with
  | nil => rfl
  | cons p t ih =>
    obtain ⟨a, b⟩ := p
    rw [List.cons_append]
    simp only [List.lookup] at h ⊢
    cases hk : (k == a) with
    | true =>
      rw [hk] at h
      simp at h
    | false =>
      rw [hk] at h
      exact ih h

/-- Lookup of a key in its own singleton. -/
lemma lookup_single_self {β : Type} (f : String) (v : β) :
    ([(f, v)] : List (String × β)).lookup f = some v := by
  simp [List.lookup]

/-- Inserting into a one-area-code registry under that same area code. -/
lemma insertNested_single (f n : String) (letter : Char)
    (fam : List (String × List Char)) :
    insertNested [(f, FamVal.dict fam)] f n letter
      = [(f, FamVal.dict (appendLetter fam n letter))] := by
  unfold insertNested
  rw [lookup_single_self]
  unfold dictSet
  rw [lookup_single_self]
  simp

/-- Appending a letter for a fresh family key. -/
lemma appendLetter_fresh (fam : List (String × List Char)) (n : String)
    (letter : Char) (h : fam.lookup n = none) :
    appendLetter fam n letter = fam ++ [(n, [letter])] := by
  unfold appendLetter
  rw [h]

/-- Fold congruence on the folded function. -/
lemma foldl_congr2 {α β : Type} {f g : β → α → β} :
    ∀ (l : List α) (init : β), (∀ b, ∀ a ∈ l, f b a = g b a) →
      l.foldl f init = l.foldl g init := by
  intro l
  induction l with
  | nil =>
    intro init _
    rfl
  | cons a t ih =>
    intro init h
    rw [List.foldl_cons, List.foldl_cons, h init a (List.mem_cons_self a t)]
    exact ih _ (fun b a2 ha2 => h b a2 (List.mem_cons_of_mem _ ha2))

/-- Folding fresh single-letter insertions under one area code builds the
family dictionary entry by entry. -/
lemma fold_insert_fresh (f : String) (letter : Char) :
    ∀ (ns : List String) (fam : List (String × List Char)),
      ns.Nodup → (∀ n ∈ ns, fam.lookup n = none) →
      ns.foldl (fun s n => insertNested s f n letter)
          [(f, FamVal.dict fam)]
        = [(f, FamVal.dict
            (fam ++ ns.map (fun n => (n, ([letter] : List Char)))))] := by
  intro ns
  induction ns with
  | nil =>
    intro fam _ _
    simp
  | cons n t ih =>
    intro fam hnodup hfresh
    have hfr2 : ∀ m ∈ t, (fam ++ [(n, [letter])]).lookup m = none := by
      intro m hm
      have hmn : m ≠ n := by
        intro hc
        exact (List.nodup_cons.mp hnodup).1 (hc ▸ hm)
      rw [lookup_append_of_none _ (hfresh m (List.mem_cons_of_mem _ hm))]
      simp [List.lookup, beq_eq_false_iff_ne.mpr hmn]
    rw [List.foldl_cons, insertNested_single,
      appendLetter_fresh _ _ _ (hfresh n (List.mem_cons_self _ _)),
      ih _ (List.nodup_cons.mp hnodup).2 hfr2]
    rw [List.append_assoc]
    rfl

/-- Reading family strings back as integers recovers `1` to `999`. -/
lemma allFams_map : allFams.map strToNat = List.range' 1 999 := by
  unfold allFams
  rw [List.map_map]
  have h : ∀ i ∈ List.range' 1 999,
      (strToNat ∘ fun i => zfill (natToStr i) 3) i = id i := by
    intro i _
    show strToNat (zfill (natToStr i) 3) = i
    rw [strToNat_zfill, strToNat_natToStr]
  rw [List.map_congr_left h, List.map_id]

/-- The 999 family strings are distinct. -/
lemma allFams_nodup : allFams.Nodup := by
  have h : (allFams.map strToNat).Nodup := by
    rw [allFams_map]
    exact List.nodup_range' 1 999
  exact List.Nodup.of_map strToNat h

/-- The family list is nonempty (first entry is family `001`). -/
lemma allFams_cons : ∃ n1 t, allFams = n1 :: t := by
  unfold allFams
  rw [show (999 : Nat) = 998 + 1 from rfl, List.range'_succ, List.map_cons]
  exact ⟨_, _, rfl⟩

/-- Decomposition of a synthesized identifier area code ++ family ++ A. -/
lemma decompose_concat (n : String) :
    decompose ⟨"12345".data ++ n.data ++ ['A']⟩ = ("12345", n, 'A') := by
  unfold decompose
  rw [List.getLastD_concat, List.append_assoc,
    List.take_append_of_le_length (by decide),
    List.drop_append_of_le_length (by decide)]
  have ht : "12345".data.take 5 = "12345".data := rfl
  have hd : "12345".data.drop 5 = [] := rfl
  rw [ht, hd, List.nil_append, List.dropLast_concat]

/-- Bulk-loading the 999 identifiers yields exactly the full family
dictionary under `12345`. -/
lemma populate_bigIds :
    populate bigIds = [("12345", FamVal.dict bigFam)] := by
  obtain ⟨n1, t, hcons⟩ := allFams_cons
  have hnodup := allFams_nodup
  rw [hcons] at hnodup
  unfold populate bigIds
  rw [List.foldl_map]
  trans (allFams.foldl (fun s n => insertNested s "12345" n 'A') [])
  · refine foldl_congr2 allFams [] ?_
    intro b n _
    show insertNested b (decompose ⟨"12345".data ++ n.data ++ ['A']⟩).1
        (decompose ⟨"12345".data ++ n.data ++ ['A']⟩).2.1
        (decompose ⟨"12345".data ++ n.data ++ ['A']⟩).2.2
      = insertNested b "12345" n 'A'
    rw [decompose_concat]
  · have hfr : ∀ m ∈ t,
        ([(n1, ['A'])] : List (String × List Char)).lookup m = none := by
      intro m hm
      have hmn : m ≠ n1 := by
        intro hc
        exact (List.nodup_cons.mp hnodup).1 (hc ▸ hm)
      simp [List.lookup, beq_eq_false_iff_ne.mpr hmn]
    rw [hcons, List.foldl_cons]
    have h1 : insertNested [] "12345" n1 'A'
        = [("12345", FamVal.dict [(n1, ['A'])])] := rfl
    rw [h1, fold_insert_fresh "12345" 'A' t [(n1, ['A'])]
      (List.nodup_cons.mp hnodup).2 hfr]
    unfold bigFam
    rw [hcons, List.map_cons]
    rfl

/-- Folding `Nat.max` over an ascending range takes the last element. -/
lemma foldl_max_range' : ∀ (n st a : Nat),
    (List.range' st n).foldl Nat.max a
      = if n = 0 then a else Nat.max a (st + n - 1) := by
  intro n
  induction n with
  | zero =>
    intro st a
    rfl
  | succ k ih =>
    intro st a
    rw [List.range'_succ]
    show (List.range' (st + 1) k).foldl Nat.max (Nat.max a st) = _
    rw [ih]
    by_cases hk : k = 0
    · subst hk
      rw [if_pos rfl, if_neg (by omega),
        show st + 1 - 1 = st from by omega]
    · rw [if_neg hk, if_neg (by omega)]
      simp only [Nat.max_def]
      split_ifs <;> omega

/-- On the gap-free family set `1` to `m`, `next_available_family`'s core
computes `m + 1`. -/
lemma nextFromNums_full (m : Nat) :
    nextFromNums (List.range' 1 m) = zfill (natToStr (m + 1)) 3 := by
  unfold nextFromNums
  have hmax : (List.range' 1 m).foldl Nat.max 0 = m := by
    rw [foldl_max_range']
    by_cases hm : m = 0
    · rw [if_pos hm, hm]
    · rw [if_neg hm, show 1 + m - 1 = m from by omega]
      exact Nat.max_eq_right (Nat.zero_le m)
  rw [hmax]
  have hfilter : (List.range' 1 m).filter
      (fun x => !(List.range' 1 m).contains x) = [] := by
    rw [List.filter_eq_nil_iff]
    intro x hx
    simp [hx]
  rw [hfilter]
  rfl

/-- C5: the claim fails on the code. On the reachable registry holding
the 999 identifiers `12345001A` to `12345999A` (a legal bulk-load input),
`next_available_family "12345"` returns `1000`: `str(1000).zfill(3)` has
4 characters, not 3. -/
theorem c5_counterexample :
    next_available_family (populate bigIds) "12345" = Except.ok "1000" ∧
    ("1000" : String).data.length ≠ 3 := by
  constructor
  · rw [populate_bigIds]
    unfold next_available_family
    rw [show is_numeric_string "12345" 5 = true from by decide,
      Bool.not_true, if_neg Bool.false_ne_true, lookup_single_self]
    dsimp only
    obtain ⟨n1, t, hcons⟩ := allFams_cons
    have hem : bigFam.isEmpty = false := by
      unfold bigFam
      rw [hcons, List.map_cons]
      rfl
    rw [if_neg (by rw [hem]; exact Bool.false_ne_true)]
    have hnums : bigFam.map (fun p => strToNat p.1) = List.range' 1 999 := by
      unfold bigFam
      rw [List.map_map]
      have h : ∀ n ∈ allFams,
          ((fun p : String × List Char => strToNat p.1)
            ∘ fun n => (n, (['A'] : List Char))) n = strToNat n :=
        fun _ _ => rfl
      rw [List.map_congr_left h]
      exact allFams_map
    rw [hnums, nextFromNums_full]
    decide
  · decide

end ProspectIDs
